import Mathlib

/-!
Shallow embedding of `src/app.py` (Bio Room Use Chart generator).

Modelling conventions:
* A spreadsheet cell is `Option String`: `none` models a missing value
  (pandas `NaN`, detected by `pd.isna`), `some s` models a value whose
  Python `str()` rendering is `s`.
* Python builtins used by the script (`str.strip`, `str.upper`,
  `str.zfill`, `int(...)`, `int(float(...))`, string slicing) are embedded
  as the `py*` helpers below on the ASCII fragment (Unicode-only
  whitespace and digits are outside the model).  `int()` follows the
  Python literal grammar with underscore digit grouping; `int(float(.))`
  distinguishes success, the caught `ValueError`/`TypeError`, the uncaught
  `OverflowError` of infinite values (a crash of the program), and a
  residual out-of-fragment outcome (see `PyIntFloatResult`).
* Fallible Python code (`try`/`except`) is embedded with `Option`:
  `none` is the caught-exception branch.
* Python dicts (insertion ordered) are embedded as association lists, and
  the stable `list.sort` as a stable insertion sort on the same key.
-/

namespace BioRoomChart

/-- Whitespace removed by Python `str.strip()` (ASCII fragment: space, tab,
newline, carriage return, vertical tab, form feed). -/
def pyIsSpace (c : Char) : Bool :=
  c = ' ' || c = '\t' || c = '\n' || c = '\r' || c = '\x0b' || c = '\x0c'

/-- List-level body of Python `str.strip()`: drop whitespace from both ends. -/
def pyStripList (l : List Char) : List Char :=
  ((l.dropWhile pyIsSpace).reverse.dropWhile pyIsSpace).reverse

/-- Python `str.strip()`. -/
def pyStrip (s : String) : String :=
  ⟨pyStripList s.data⟩

/-- Character-level body of Python `str.upper()` on the ASCII letters; every
other character is left unchanged. -/
def pyUpperChar (c : Char) : Char :=
  match c with
  | 'a' => 'A' | 'b' => 'B' | 'c' => 'C' | 'd' => 'D' | 'e' => 'E'
  | 'f' => 'F' | 'g' => 'G' | 'h' => 'H' | 'i' => 'I' | 'j' => 'J'
  | 'k' => 'K' | 'l' => 'L' | 'm' => 'M' | 'n' => 'N' | 'o' => 'O'
  | 'p' => 'P' | 'q' => 'Q' | 'r' => 'R' | 's' => 'S' | 't' => 'T'
  | 'u' => 'U' | 'v' => 'V' | 'w' => 'W' | 'x' => 'X' | 'y' => 'Y'
  | 'z' => 'Z' | c => c

/-- Python `str.upper()`. -/
def pyUpper (s : String) : String :=
  ⟨s.data.map pyUpperChar⟩

/-- Character-level body of Python `str.lower()` on the ASCII letters; every
other character is left unchanged. -/
def pyLowerChar (c : Char) : Char :=
  match c with
  | 'A' => 'a' | 'B' => 'b' | 'C' => 'c' | 'D' => 'd' | 'E' => 'e'
  | 'F' => 'f' | 'G' => 'g' | 'H' => 'h' | 'I' => 'i' | 'J' => 'j'
  | 'K' => 'k' | 'L' => 'l' | 'M' => 'm' | 'N' => 'n' | 'O' => 'o'
  | 'P' => 'p' | 'Q' => 'q' | 'R' => 'r' | 'S' => 's' | 'T' => 't'
  | 'U' => 'u' | 'V' => 'v' | 'W' => 'w' | 'X' => 'x' | 'Y' => 'y'
  | 'Z' => 'z' | c => c

/-- Python `str()` of a cell: a present value renders as itself, a pandas
`NaN` renders as the string `"nan"` (as `astype(str)` produces). -/
def pyStr (cell : Option String) : String :=
  cell.getD "nan"

/-- Value of a list of decimal digit characters, most significant first. -/
def natOfDigits (l : List Char) : Nat :=
  l.foldl (fun a c => 10 * a + (c.toNat - 48)) 0

/-- Digit run in the Python integer-literal grammar: nonempty, and an
underscore may appear only between two digits (`int("1_0")` is 10, while
`"_1"`, `"1_"` and `"1__0"` raise `ValueError`). -/
def digitsGrouped : List Char → Bool
  | [] => false
  | [c] => c.isDigit
  | c :: c2 :: rest =>
    if c2 = '_' then c.isDigit && digitsGrouped rest
    else c.isDigit && digitsGrouped (c2 :: rest)

/-- Digit-run parsing used by Python `int()` and `float()`: a grouped digit
run evaluates to the value of its digits with the underscores removed. -/
def pyDigitsVal (l : List Char) : Option Nat :=
  if digitsGrouped l then some (natOfDigits (l.filter (fun c => !(c = '_'))))
  else none

/-- Python `int(s)` on a string: surrounding whitespace is ignored, an
optional single sign precedes a nonempty run of digits; anything else
raises `ValueError`, embedded as `none`. -/
def pyInt (s : String) : Option Int :=
  match pyStripList s.data with
  | [] => none
  | c :: ds =>
    if c = '+' then (pyDigitsVal ds).map (fun n => (n : Int))
    else if c = '-' then (pyDigitsVal ds).map (fun n => -(n : Int))
    else (pyDigitsVal (c :: ds)).map (fun n => (n : Int))

/-- List-level body of Python `s.zfill(w)`: left-pad with zeros to width
`w`, keeping a leading sign in front of the padding. -/
def pyZfillList (w : Nat) : List Char → List Char
  | [] => List.replicate w '0'
  | c :: rest =>
    if w ≤ (c :: rest).length then c :: rest
    else if c = '+' || c = '-' then c :: (List.replicate (w - (c :: rest).length) '0' ++ rest)
    else List.replicate (w - (c :: rest).length) '0' ++ (c :: rest)

/-- Embedding of `parse_time` (src/app.py lines 99-107).  `pd.isna` is the
`none` case; the `try` block computes `str(x).strip().zfill(4)`, then
`int` of the slices `[:-2]` and `[-2:]`; the bare `except` returns `None`
when either `int` call fails. -/
def parse_time (time_str : Option String) : Option Int :=
  match time_str with
  | none => none
  | some s =>
    if s = "" then none
    else
      let t := pyZfillList 4 (pyStripList s.data)
      match pyInt ⟨t.take (t.length - 2)⟩, pyInt ⟨t.drop (t.length - 2)⟩ with
      | some hours, some minutes => some (hours * 60 + minutes)
      | _, _ => none

/-- Correction table of `correct_instructor_name` (src/app.py lines 73-77). -/
def corrections : List (String × String) :=
  [("NYHOLT DE PRADA", "PRADA"),
   ("RECART GONZALEZ", "RECART-GONZALEZ"),
   ("FLEMING-DAVIES", "FLEMING-DAVIES")]

/-- Embedding of `correct_instructor_name` (src/app.py lines 69-78):
`NaN` becomes the empty string, otherwise the name is stripped and
upper-cased and looked up in the correction table. -/
def correct_instructor_name (name : Option String) : String :=
  match name with
  | none => ""
  | some s =>
    let n := pyUpper (pyStrip s)
    (corrections.lookup n).getD n

/-- Embedding of `get_day_of_week` (src/app.py lines 110-117) applied to a
row whose five day-flag columns are present (the app validates the header
before processing); the arguments are the `str()` renderings of the five
cells, and the function appends the full weekday name whenever the
stripped cell equals the single-letter day code. -/
def get_day_of_week (m t w r f : String) : List String :=
  (if pyStrip m = "M" then ["Monday"] else []) ++
  (if pyStrip t = "T" then ["Tuesday"] else []) ++
  (if pyStrip w = "W" then ["Wednesday"] else []) ++
  (if pyStrip r = "R" then ["Thursday"] else []) ++
  (if pyStrip f = "F" then ["Friday"] else [])

example : parse_time (some "1430") = some 870 := by decide
example : parse_time (some "14:30") = none := by decide
example : parse_time (some "930") = some 570 := by decide
example : parse_time (some "2500") = some 1500 := by decide
example : correct_instructor_name (some " nyholt de prada ") = "PRADA" := by decide

/-- Outcome of Python `int(float(s))` at src/app.py line 146.
`ok n` is a normal return; `caught` is a `ValueError` or `TypeError`
(invalid literal, or `int(nan)`), the two exception classes the
`except (ValueError, TypeError)` at line 147 catches; `overflowErr` is the
`OverflowError` raised by `int()` on an infinite value, which line 147
does NOT catch, so the program propagates it and processing stops;
`unmodeled` marks valid finite literals outside the exactly-modeled
fragment (a non-integer value, or magnitude at least 2^53 and below
2^1024, where binary64 rounding can change the truncated integer). -/
inductive PyIntFloatResult where
  | ok (n : Int)
  | caught
  | overflowErr
  | unmodeled
deriving DecidableEq

/-- Split a char list at the first exponent marker `e`/`E`. -/
def splitExpChar : List Char → List Char × Option (List Char)
  | [] => ([], none)
  | c :: rest =>
    if c = 'e' ∨ c = 'E' then ([], some rest)
    else
      let p := splitExpChar rest
      (c :: p.1, p.2)

/-- Split a char list at the first decimal point. -/
def splitDotChar : List Char → List Char × Option (List Char)
  | [] => ([], none)
  | c :: rest =>
    if c = '.' then ([], some rest)
    else
      let p := splitDotChar rest
      (c :: p.1, p.2)

/-- Exponent part of a Python float literal: optional sign then a grouped
digit run. -/
def parseExp (l : List Char) : Option Int :=
  match l with
  | '+' :: rest => (pyDigitsVal rest).map (fun n => (n : Int))
  | '-' :: rest => (pyDigitsVal rest).map (fun n => -(n : Int))
  | _ => (pyDigitsVal l).map (fun n => (n : Int))

/-- Mantissa of a Python float literal: `dp`, `dp.`, `.dp` or `dp.dp` with
grouped digit runs; returns the digit value and the fraction length. -/
def mantissaVal (l : List Char) : Option (Nat × Nat) :=
  match splitDotChar l with
  | (ip, none) =>
    if digitsGrouped ip then some (natOfDigits (ip.filter (fun c => !(c = '_'))), 0)
    else none
  | (ip, some fp) =>
    if (ip.isEmpty || digitsGrouped ip) && (fp.isEmpty || digitsGrouped fp) &&
        !(ip.isEmpty && fp.isEmpty) then
      let df := fp.filter (fun c => !(c = '_'))
      some (natOfDigits (ip.filter (fun c => !(c = '_')) ++ df), df.length)
    else none

/-- Embedding of Python `int(float(s))` on a string: strip whitespace, an
optional sign, then either the case-insensitive `inf`/`infinity` (whose
`int()` raises the uncaught `OverflowError`), `nan` (whose `int()` raises
the caught `ValueError`), or a decimal literal with optional fraction and
exponent.  An exact integer value of magnitude below 2^53 is represented
exactly by binary64 and returned; a value of magnitude at least 2^1024
rounds to infinity, so `int()` again raises `OverflowError`; remaining
finite values are left `unmodeled`. -/
def pyFloatIntCore (s : String) : PyIntFloatResult :=
  match pyStripList s.data with
  | [] => PyIntFloatResult.caught
  | l =>
    let signBody : Int × List Char :=
      match l with
      | '+' :: rest => (1, rest)
      | '-' :: rest => (-1, rest)
      | _ => (1, l)
    let lower := signBody.2.map pyLowerChar
    if lower = "inf".data ∨ lower = "infinity".data then PyIntFloatResult.overflowErr
    else if lower = "nan".data then PyIntFloatResult.caught
    else
      let se := splitExpChar signBody.2
      let expv : Option Int :=
        match se.2 with
        | none => some 0
        | some ep => parseExp ep
      match mantissaVal se.1, expv with
      | some dk, some e =>
        let t : Int := e - (dk.2 : Nat)
        if dk.1 = 0 then PyIntFloatResult.ok 0
        else if 0 ≤ t then
          if t > 400 then PyIntFloatResult.overflowErr
          else
            let v := dk.1 * 10 ^ t.toNat
            if v < 2 ^ 53 then PyIntFloatResult.ok (signBody.1 * v)
            else if 2 ^ 1024 ≤ v then PyIntFloatResult.overflowErr
            else PyIntFloatResult.unmodeled
        else
          if (-t).toNat > 400 then PyIntFloatResult.unmodeled
          else if 10 ^ (-t).toNat ∣ dk.1 then
            let v := dk.1 / 10 ^ (-t).toNat
            if v < 2 ^ 53 then PyIntFloatResult.ok (signBody.1 * v)
            else if 2 ^ 1024 ≤ v then PyIntFloatResult.overflowErr
            else PyIntFloatResult.unmodeled
          else PyIntFloatResult.unmodeled
      | _, _ => PyIntFloatResult.caught

example : parse_time (some "1_030") = some 630 := by decide
example : pyFloatIntCore "inf" = PyIntFloatResult.overflowErr := by decide
example : pyFloatIntCore "-Infinity" = PyIntFloatResult.overflowErr := by decide
example : pyFloatIntCore "nan" = PyIntFloatResult.caught := by decide
example : pyFloatIntCore "abc" = PyIntFloatResult.caught := by decide
example : pyFloatIntCore "" = PyIntFloatResult.caught := by decide
example : pyFloatIntCore "1e3" = PyIntFloatResult.ok 1000 := by decide
example : pyFloatIntCore "225.0" = PyIntFloatResult.ok 225 := by decide
example : pyFloatIntCore "-225" = PyIntFloatResult.ok (-225) := by decide
example : pyFloatIntCore "225.5" = PyIntFloatResult.unmodeled := by decide
example : pyFloatIntCore "22500e-2" = PyIntFloatResult.ok 225 := by decide
example : pyFloatIntCore "1e999" = PyIntFloatResult.overflowErr := by decide

/-- The room-number computation as the row loop sees it: the returned value
on success, `none` when the exception is caught and the row skipped.  On
the `overflowErr` outcome the real program raises out of the loop, so
`process_schedule_data` models the program only on inputs free of that
outcome (and of `unmodeled`). -/
def pyFloatTrunc (s : String) : Option Int :=
  match pyFloatIntCore s with
  | PyIntFloatResult.ok n => some n
  | _ => none

/-- List-level body of Python `str.replace(pat, rep)`: replaces every
non-overlapping occurrence of a nonempty pattern, scanning left to right.
The `Nat` argument is recursion fuel (any value at least the list length
gives the replace semantics); it keeps the recursion structural. -/
def pyReplaceCore (pat rep : List Char) : Nat → List Char → List Char
  | _, [] => []
  | 0, l => l
  | fuel + 1, c :: rest =>
    if pat ≠ [] ∧ pat.isPrefixOf (c :: rest)
    then rep ++ pyReplaceCore pat rep fuel (rest.drop (pat.length - 1))
    else c :: pyReplaceCore pat rep fuel rest

/-- Python `s.replace(pat, rep)`. -/
def pyReplace (s pat rep : String) : String :=
  ⟨pyReplaceCore pat.data rep.data s.data.length s.data⟩

/-- One raw input row (a `ScheduleRow`): the cells of the columns that
`process_schedule_data` reads.  Every cell is `Option String` (`none` is
pandas `NaN`). -/
structure ScheduleRow where
  BLDG : Option String
  ROOM : Option String
  BEGIN : Option String
  END : Option String
  SUBJ : Option String
  CRSE : Option String
  TITLE : Option String
  LAST_NAME : Option String
  M : Option String
  T : Option String
  W : Option String
  R : Option String
  F : Option String
deriving DecidableEq

/-- Predicate of `df.dropna(subset=["BLDG", "ROOM", "BEGIN", "END"])`
(src/app.py line 128): the row is kept iff none of the four cells is `NaN`. -/
def dropnaOK (r : ScheduleRow) : Bool :=
  r.BLDG.isSome && r.ROOM.isSome && r.BEGIN.isSome && r.END.isSome

/-- Row of the cleaned DataFrame after the `astype(str).str.strip()` pass and
the derived `Course`, `Instructor` and `Days` columns (src/app.py lines
134-142).  `BEGIN`, `END` and `TITLE` are not in `strip_cols` and stay raw. -/
structure CleanRow where
  BLDG : String
  ROOM : String
  BEGIN : Option String
  END : Option String
  TITLE : Option String
  Course : String
  Instructor : String
  Days : List String
deriving DecidableEq

/-- Cleaning of one surviving row (src/app.py lines 134-142). -/
def cleanRow (r : ScheduleRow) : CleanRow :=
  { BLDG := pyStrip (pyStr r.BLDG)
    ROOM := pyStrip (pyStr r.ROOM)
    BEGIN := r.BEGIN
    END := r.END
    TITLE := r.TITLE
    Course := pyStrip (pyStr r.SUBJ) ++ pyStrip (pyStr r.CRSE)
    Instructor := correct_instructor_name (some (pyStrip (pyStr r.LAST_NAME)))
    Days := get_day_of_week (pyStrip (pyStr r.M)) (pyStrip (pyStr r.T))
      (pyStrip (pyStr r.W)) (pyStrip (pyStr r.R)) (pyStrip (pyStr r.F)) }

/-- One meeting entry appended to a bucket (src/app.py lines 157-165). -/
structure MeetingEntry where
  Begin : Option String
  End : Option String
  Course : String
  Title : Option String
  Instructor : String
  BeginMinutes : Int
  IsMorning : Bool
deriving DecidableEq

abbrev Bucket := List MeetingEntry
abbrev RoomMap := List (String × Bucket)

/-- The day → room → entries dictionary; Python dicts keep insertion order,
embedded as association lists with new keys appended at the end. -/
abbrev RoomSchedule := List (String × RoomMap)

/-- The dictionary literal appended at src/app.py lines 157-165. -/
def mkEntry (row : CleanRow) (begin_time : Int) : MeetingEntry :=
  { Begin := row.BEGIN
    End := row.END
    Course := row.Course
    Title := row.TITLE
    Instructor := row.Instructor
    BeginMinutes := begin_time
    IsMorning := decide (begin_time < 720) }

/-- The room identifier computed at src/app.py line 146:
`BLDG.replace("SCST", "ST")` concatenated with `int(float(ROOM))`. -/
def roomNameOf (row : CleanRow) (n : Int) : String :=
  pyReplace row.BLDG "SCST" "ST" ++ toString n

/-- Append into the inner room dictionary, creating the key with an empty
list first when absent (src/app.py lines 155, 157). -/
def addToRoom (rm : RoomMap) (room : String) (e : MeetingEntry) : RoomMap :=
  match rm with
  | [] => [(room, [e])]
  | (r, b) :: rest => if r = room then (r, b ++ [e]) :: rest else (r, b) :: addToRoom rest room e

/-- Append into the day dictionary, creating missing keys (src/app.py lines
154-157). -/
def addToSched (s : RoomSchedule) (day room : String) (e : MeetingEntry) : RoomSchedule :=
  match s with
  | [] => [(day, addToRoom [] room e)]
  | (d, rm) :: rest =>
    if d = day then (d, addToRoom rm room e) :: rest else (d, rm) :: addToSched rest day room e

/-- Body of the row loop (src/app.py lines 144-165): `continue` on a room
computation error or an unparseable `BEGIN`, otherwise append one entry
per expanded weekday. -/
def processRow (sched : RoomSchedule) (row : CleanRow) : RoomSchedule :=
  match pyFloatTrunc row.ROOM with
  | none => sched
  | some n =>
    match parse_time row.BEGIN with
    | none => sched
    | some begin_time =>
      row.Days.foldl (fun s day => addToSched s day (roomNameOf row n) (mkEntry row begin_time)) sched

/-- Sort key comparison of `sort(key=lambda x: x["BeginMinutes"])`. -/
def entryLE (x y : MeetingEntry) : Bool :=
  x.BeginMinutes ≤ y.BeginMinutes

/-- Insert an entry after every already-placed entry whose key is less than
or equal to its key: the insertion step of a stable sort. -/
def insertLE (e : MeetingEntry) : Bucket → Bucket
  | [] => [e]
  | x :: xs => if entryLE x e then x :: insertLE e xs else e :: x :: xs

/-- Stable sort by `BeginMinutes`, the embedding of Python stable
`list.sort(key=lambda x: x["BeginMinutes"])`: entries are inserted in
original order, each after all entries with a key less than or equal to
its own, so equal keys keep their original relative order. -/
def stableSortEntries (b : Bucket) : Bucket :=
  b.foldl (fun acc x => insertLE x acc) []

/-- The final sorting pass (src/app.py lines 167-169). -/
def sortSched (s : RoomSchedule) : RoomSchedule :=
  s.map (fun p => (p.1, p.2.map (fun q => (q.1, stableSortEntries q.2))))

/-- The schedule dictionary before the sorting pass: dropna, clean, then fold
the row loop over the rows in order. -/
def process_raw (df : List ScheduleRow) : RoomSchedule :=
  ((df.filter dropnaOK).map cleanRow).foldl processRow []

/-- Embedding of `process_schedule_data` (src/app.py lines 120-170). -/
def process_schedule_data (df : List ScheduleRow) : RoomSchedule :=
  sortSched (process_raw df)

/-- First-match association-list lookup with a default, the embedding of a
Python dict read. -/
def assocGetD {α : Type} (l : List (String × α)) (k : String) (dflt : α) : α :=
  match l with
  | [] => dflt
  | (k0, v) :: rest => if k0 = k then v else assocGetD rest k dflt

/-- Bucket lookup: the entry list of a (day, room) pair, empty when either
key is absent. -/
def bucketOf (s : RoomSchedule) (day room : String) : Bucket :=
  assocGetD (assocGetD s day []) room []

/-- The required header set (src/app.py lines 280-283). -/
def REQUIRED_COLUMNS : List String :=
  ["SUBJ", "CRSE #", "SEC #", "TITLE", "ATTRIBUTE", "UNITS", "M", "T", "W", "R", "F",
   "BEGIN", "END", "BLDG", "ROOM", "ENROLLMENT", "LAST NAME", "FIRST NAME"]

/-- The missing-column computation (src/app.py line 308): required columns
absent from the uploaded header, in required order. -/
def missing_cols (cols : List String) : List String :=
  REQUIRED_COLUMNS.filter (fun c => !(cols.contains c))

/-- Outcome shown to the user after upload validation. -/
inductive UploadOutcome where
  | errorMissing (missing : List String)
  | success
deriving DecidableEq

/-- Embedding of the upload-validation and generate gating control flow
(src/app.py lines 306-320): when columns are missing, `file_valid` stays
false, the error message lists them and the generate step never runs;
otherwise the chart may be generated from the loaded DataFrame. -/
def validate_and_generate (cols : List String) (rows : List ScheduleRow) :
    UploadOutcome × Option RoomSchedule :=
  let m := missing_cols cols
  if m.isEmpty then (UploadOutcome.success, some (process_schedule_data rows))
  else (UploadOutcome.errorMissing m, none)

/-- A concrete well-formed row used in concrete evaluations. -/
def sampleRow : ScheduleRow :=
  { BLDG := some "SCST"
    ROOM := some "225"
    BEGIN := some "2500"
    END := some "1600"
    SUBJ := some "BIOL"
    CRSE := some "101"
    TITLE := some "Microbiology"
    LAST_NAME := some "Smith"
    M := some "M"
    T := some ""
    W := some "W"
    R := some ""
    F := some "" }

example :
    (bucketOf (process_schedule_data [sampleRow]) "Monday" "ST225").map
      (fun e => e.BeginMinutes) = [1500] := by decide

/-! Lemmas about the stable sort. -/

/-- Buckets sorted by non-decreasing `BeginMinutes`. -/
abbrev SortedBucket (b : Bucket) : Prop :=
  b.Pairwise (fun x y => x.BeginMinutes ≤ y.BeginMinutes)

theorem entryLE_iff (x y : MeetingEntry) : entryLE x y = true ↔ x.BeginMinutes ≤ y.BeginMinutes := by
  simp [entryLE]

theorem insertLE_perm (e : MeetingEntry) : ∀ b : Bucket, List.Perm (insertLE e b) (e :: b)
  | [] => List.Perm.refl _
  | x :: xs => by
    unfold insertLE
    by_cases h : entryLE x e
    · simpa [h] using (List.Perm.cons x (insertLE_perm e xs)).trans (List.Perm.swap e x xs)
    · simp [h]

theorem insertLE_sorted (e : MeetingEntry) :
    ∀ b : Bucket, SortedBucket b → SortedBucket (insertLE e b)
  | [], _ => List.pairwise_singleton _ _
  | x :: xs, h => by
    obtain ⟨hx, hxs⟩ := List.pairwise_cons.mp h
    unfold insertLE
    by_cases hle : entryLE x e
    · rw [if_pos hle]
      refine List.pairwise_cons.mpr ⟨fun y hy => ?_, insertLE_sorted e xs hxs⟩
      rcases List.mem_cons.mp ((insertLE_perm e xs).mem_iff.mp hy) with heq | hy'
      · rw [heq]
        exact (entryLE_iff x e).mp hle
      · exact hx y hy'
    · rw [if_neg hle]
      have hex : e.BeginMinutes ≤ x.BeginMinutes := by
        have := (entryLE_iff x e).not.mp hle
        omega
      refine List.pairwise_cons.mpr ⟨fun y hy => ?_, List.pairwise_cons.mpr ⟨hx, hxs⟩⟩
      rcases List.mem_cons.mp hy with heq | hy'
      · rw [heq]
        exact hex
      · exact le_trans hex (hx y hy')

theorem foldl_insertLE_perm :
    ∀ (l acc : Bucket), List.Perm (l.foldl (fun a x => insertLE x a) acc) (acc ++ l)
  | [], acc => by simp
  | x :: xs, acc => by
    have h1 := foldl_insertLE_perm xs (insertLE x acc)
    have h2 : List.Perm (insertLE x acc ++ xs) ((x :: acc) ++ xs) :=
      (insertLE_perm x acc).append_right xs
    have h3 : List.Perm ((x :: acc) ++ xs) (acc ++ x :: xs) := by
      have hm : List.Perm (acc ++ x :: xs) (x :: (acc ++ xs)) := List.perm_middle
      simpa using hm.symm
    simpa using (h1.trans h2).trans h3

theorem stableSortEntries_perm (b : Bucket) : List.Perm (stableSortEntries b) b := by
  simpa [stableSortEntries] using foldl_insertLE_perm b []

theorem foldl_insertLE_sorted :
    ∀ (l acc : Bucket), SortedBucket acc →
      SortedBucket (l.foldl (fun a x => insertLE x a) acc)
  | [], _, h => h
  | x :: xs, acc, h => foldl_insertLE_sorted xs (insertLE x acc) (insertLE_sorted x acc h)

theorem stableSortEntries_sorted (b : Bucket) : SortedBucket (stableSortEntries b) :=
  foldl_insertLE_sorted b [] List.Pairwise.nil

theorem filter_insertLE (k : Int) (e : MeetingEntry) :
    ∀ b : Bucket, SortedBucket b →
      (insertLE e b).filter (fun x => decide (x.BeginMinutes = k)) =
        if e.BeginMinutes = k
        then b.filter (fun x => decide (x.BeginMinutes = k)) ++ [e]
        else b.filter (fun x => decide (x.BeginMinutes = k))
  | [], _ => by
    by_cases h : e.BeginMinutes = k <;> simp [insertLE, h]
  | x :: xs, hs => by
    obtain ⟨hs1, hs2⟩ := List.pairwise_cons.mp hs
    unfold insertLE
    by_cases hle : entryLE x e
    · rw [if_pos hle]
      rw [List.filter_cons, List.filter_cons]
      rw [filter_insertLE k e xs hs2]
      by_cases hek : e.BeginMinutes = k <;> by_cases hxk : x.BeginMinutes = k <;>
        simp [hek, hxk]
    · rw [if_neg hle]
      have hex : e.BeginMinutes < x.BeginMinutes := by
        have := (entryLE_iff x e).not.mp hle
        omega
      by_cases hek : e.BeginMinutes = k
      · have hnone : (x :: xs).filter (fun y => decide (y.BeginMinutes = k)) = [] := by
          apply List.filter_eq_nil_iff.mpr
          intro y hy
          have hky : x.BeginMinutes ≤ y.BeginMinutes := by
            rcases List.mem_cons.mp hy with rfl | hy'
            · exact le_refl _
            · exact hs1 y hy'
          simp only [decide_eq_true_eq]
          omega
        rw [List.filter_cons_of_pos (by simp [hek]), hnone, if_pos hek]
        simp [hnone]
      · rw [List.filter_cons_of_neg (by simp [hek]), if_neg hek]

theorem filter_foldl_insertLE (k : Int) :
    ∀ (l acc : Bucket), SortedBucket acc →
      (l.foldl (fun a x => insertLE x a) acc).filter (fun x => decide (x.BeginMinutes = k)) =
        acc.filter (fun x => decide (x.BeginMinutes = k)) ++
          l.filter (fun x => decide (x.BeginMinutes = k))
  | [], acc, _ => by simp
  | x :: xs, acc, h => by
    rw [List.foldl_cons]
    rw [filter_foldl_insertLE k xs (insertLE x acc) (insertLE_sorted x acc h)]
    rw [filter_insertLE k x acc h]
    rw [List.filter_cons]
    by_cases hxk : x.BeginMinutes = k <;> simp [hxk]

/-- Stability of the sort: filtering the sorted bucket to each key value
gives exactly the same sequence as filtering the unsorted bucket. -/
theorem stableSortEntries_filter (k : Int) (b : Bucket) :
    (stableSortEntries b).filter (fun x => decide (x.BeginMinutes = k)) =
      b.filter (fun x => decide (x.BeginMinutes = k)) := by
  simpa [stableSortEntries] using filter_foldl_insertLE k b [] List.Pairwise.nil

/-! Lemmas about the day → room → bucket dictionary. -/

theorem assocGetD_addToRoom (rm : RoomMap) (room r : String) (e : MeetingEntry) :
    assocGetD (addToRoom rm room e) r [] =
      if room = r then assocGetD rm r [] ++ [e] else assocGetD rm r [] := by
  induction rm with
  | nil => by_cases h : room = r <;> simp [addToRoom, assocGetD, h]
  | cons p rest ih =>
    obtain ⟨r0, b⟩ := p
    by_cases h0 : r0 = room <;> by_cases hr : r0 = r <;> by_cases hrr : room = r <;>
      simp_all [addToRoom, assocGetD]

theorem bucketOf_addToSched (s : RoomSchedule) (day room d r : String) (e : MeetingEntry) :
    bucketOf (addToSched s day room e) d r =
      if day = d ∧ room = r then bucketOf s d r ++ [e] else bucketOf s d r := by
  induction s with
  | nil =>
    by_cases hd : day = d <;> by_cases hr : room = r <;>
      simp [addToSched, bucketOf, assocGetD, assocGetD_addToRoom, hd, hr]
  | cons p rest ih =>
    obtain ⟨d0, rm⟩ := p
    by_cases h0 : d0 = day <;> by_cases hd : d0 = d <;> by_cases hdd : day = d <;>
      simp_all [addToSched, bucketOf, assocGetD, assocGetD_addToRoom]

theorem cons_replicate_comm {α : Type} (n : Nat) (e : α) :
    e :: List.replicate n e = List.replicate n e ++ [e] := by
  rw [← List.replicate_succ, List.replicate_succ']

/-- One fold step over the `Days` list of a row appends one copy of `e` to
the bucket of each occurrence of the day under the row room. -/
theorem bucketOf_daysFold (e : MeetingEntry) (rn d r : String) :
    ∀ (days : List String) (sched : RoomSchedule),
      bucketOf (days.foldl (fun s day => addToSched s day rn e) sched) d r =
        bucketOf sched d r ++
          List.replicate (if rn = r then days.count d else 0) e
  | [], sched => by simp
  | d1 :: rest, sched => by
    rw [List.foldl_cons, bucketOf_daysFold e rn d r rest (addToSched sched d1 rn e),
      bucketOf_addToSched]
    by_cases h1 : d1 = d <;> by_cases hrn : rn = r <;>
      simp_all [List.count_cons, List.replicate_succ', List.append_assoc,
        cons_replicate_comm]

/-- Entries one cleaned row contributes to the (d, r) bucket: none when the
room or the begin time fails to parse, otherwise one copy of its entry per
occurrence of `d` in its day list when `r` is its room. -/
def rowContrib (row : CleanRow) (d r : String) : Bucket :=
  match pyFloatTrunc row.ROOM with
  | none => []
  | some n =>
    match parse_time row.BEGIN with
    | none => []
    | some begin_time =>
      if roomNameOf row n = r
      then List.replicate (row.Days.count d) (mkEntry row begin_time)
      else []

theorem bucketOf_processRow (sched : RoomSchedule) (row : CleanRow) (d r : String) :
    bucketOf (processRow sched row) d r = bucketOf sched d r ++ rowContrib row d r := by
  unfold processRow rowContrib
  cases hn : pyFloatTrunc row.ROOM with
  | none => simp
  | some n =>
    cases hb : parse_time row.BEGIN with
    | none => simp
    | some begin_time =>
      rw [bucketOf_daysFold]
      by_cases hrn : roomNameOf row n = r <;> simp [hrn]

/-- Concatenated contributions of a list of cleaned rows, in row order. -/
def rowsContrib (rows : List CleanRow) (d r : String) : Bucket :=
  match rows with
  | [] => []
  | row :: rest => rowContrib row d r ++ rowsContrib rest d r

theorem rowsContrib_append (a b : List CleanRow) (d r : String) :
    rowsContrib (a ++ b) d r = rowsContrib a d r ++ rowsContrib b d r := by
  induction a with
  | nil => simp [rowsContrib]
  | cons row rest ih => simp [rowsContrib, ih]

theorem bucketOf_foldl_processRow (d r : String) :
    ∀ (rows : List CleanRow) (sched : RoomSchedule),
      bucketOf (rows.foldl processRow sched) d r =
        bucketOf sched d r ++ rowsContrib rows d r
  | [], sched => by simp [rowsContrib]
  | row :: rest, sched => by
    rw [List.foldl_cons, bucketOf_foldl_processRow d r rest (processRow sched row),
      bucketOf_processRow]
    simp [rowsContrib]

/-- Structural characterization of the pre-sort schedule: the (d, r) bucket
is exactly the concatenation, in input row order, of the per-row
contributions of the rows surviving `dropna`. -/
theorem bucketOf_process_raw (df : List ScheduleRow) (d r : String) :
    bucketOf (process_raw df) d r =
      rowsContrib ((df.filter dropnaOK).map cleanRow) d r := by
  have h := bucketOf_foldl_processRow d r ((df.filter dropnaOK).map cleanRow) []
  simpa [process_raw, bucketOf, assocGetD] using h

theorem assocGetD_sortSched_outer (s : RoomSchedule) (d : String) :
    assocGetD (sortSched s) d [] =
      (assocGetD s d []).map (fun q => (q.1, stableSortEntries q.2)) := by
  induction s with
  | nil => simp [sortSched, assocGetD]
  | cons p rest ih =>
    by_cases hd : p.1 = d <;> simp_all [sortSched, assocGetD]

theorem assocGetD_map_sort (rm : RoomMap) (r : String) :
    assocGetD (rm.map (fun q => (q.1, stableSortEntries q.2))) r [] =
      stableSortEntries (assocGetD rm r []) := by
  induction rm with
  | nil => simp [assocGetD, stableSortEntries]
  | cons q rest ih =>
    by_cases hr : q.1 = r <;> simp_all [assocGetD]

/-- The sorting pass sorts every bucket in place. -/
theorem bucketOf_sortSched (s : RoomSchedule) (d r : String) :
    bucketOf (sortSched s) d r = stableSortEntries (bucketOf s d r) := by
  rw [bucketOf, assocGetD_sortSched_outer, assocGetD_map_sort, bucketOf]

/-- The final (d, r) bucket is the stable sort of the concatenated per-row
contributions. -/
theorem bucketOf_process_schedule_data (df : List ScheduleRow) (d r : String) :
    bucketOf (process_schedule_data df) d r =
      stableSortEntries (rowsContrib ((df.filter dropnaOK).map cleanRow) d r) := by
  rw [process_schedule_data, bucketOf_sortSched, bucketOf_process_raw]

/-! Lemmas about the Python string normalizations. -/

theorem pyUpperChar_idem_aux : ∀ (c d : Char), d = pyUpperChar c → pyUpperChar d = d := by
  intro c d h
  rw [pyUpperChar.eq_def] at h
  split at h <;> subst h
  case _ => decide
  all_goals first | decide | (rw [pyUpperChar.eq_def]; split <;> simp_all)

theorem pyUpperChar_idem (c : Char) : pyUpperChar (pyUpperChar c) = pyUpperChar c :=
  pyUpperChar_idem_aux c _ rfl

theorem pyIsSpace_pyUpperChar (c : Char) : pyIsSpace (pyUpperChar c) = pyIsSpace c := by
  rw [pyUpperChar.eq_def]
  split <;> first | decide | rfl

theorem dropWhile_pyIsSpace_idem (l : List Char) :
    (l.dropWhile pyIsSpace).dropWhile pyIsSpace = l.dropWhile pyIsSpace := by
  induction l with
  | nil => rfl
  | cons c rest ih =>
    by_cases h : pyIsSpace c
    · simp [List.dropWhile_cons, h, ih]
    · simp [List.dropWhile_cons, h]

theorem dropWhile_of_leading (p : Char → Bool) :
    ∀ (x y : List Char), x.dropWhile p = x → y <+: x → y.dropWhile p = y := by
  intro x y hx hyx
  cases y with
  | nil => rfl
  | cons c ys =>
    obtain ⟨t, ht⟩ := hyx
    have hc : ¬ p c = true := by
      intro hpc
      have hx' : x.dropWhile p = (ys ++ t).dropWhile p := by
        rw [← ht, List.cons_append, List.dropWhile_cons_of_pos hpc]
      rw [hx] at hx'
      have hlx : x.length = ((ys ++ t).dropWhile p).length := congrArg List.length hx'
      rw [← ht] at hlx
      simp only [List.cons_append, List.length_cons, List.length_append] at hlx
      have hlen : ((ys ++ t).dropWhile p).length ≤ (ys ++ t).length :=
        (List.dropWhile_sublist p).length_le
      simp only [List.length_append] at hlen
      omega
    exact List.dropWhile_cons_of_neg hc

theorem pyStripList_leading (l : List Char) : pyStripList l <+: l.dropWhile pyIsSpace := by
  rw [pyStripList]
  have hsuf : ((l.dropWhile pyIsSpace).reverse.dropWhile pyIsSpace) <:+ (l.dropWhile pyIsSpace).reverse :=
    List.dropWhile_suffix _
  have := List.reverse_prefix.mpr hsuf
  simpa using this

theorem pyStripList_idem (l : List Char) : pyStripList (pyStripList l) = pyStripList l := by
  have h1 : (pyStripList l).dropWhile pyIsSpace = pyStripList l :=
    dropWhile_of_leading pyIsSpace (l.dropWhile pyIsSpace) (pyStripList l)
      (dropWhile_pyIsSpace_idem l) (pyStripList_leading l)
  have h2 : (pyStripList l).reverse.dropWhile pyIsSpace = (pyStripList l).reverse := by
    rw [pyStripList, List.reverse_reverse]
    exact dropWhile_pyIsSpace_idem _
  rw [pyStripList, h1, h2, List.reverse_reverse]

theorem dropWhile_map_pyUpper (l : List Char) :
    (l.map pyUpperChar).dropWhile pyIsSpace = (l.dropWhile pyIsSpace).map pyUpperChar := by
  induction l with
  | nil => rfl
  | cons c rest ih =>
    by_cases h : pyIsSpace c
    · rw [List.map_cons, List.dropWhile_cons_of_pos (by rw [pyIsSpace_pyUpperChar]; exact h),
        List.dropWhile_cons_of_pos h, ih]
    · rw [List.map_cons, List.dropWhile_cons_of_neg (by rw [pyIsSpace_pyUpperChar]; exact h),
        List.dropWhile_cons_of_neg h, List.map_cons]

theorem pyStripList_map_pyUpper (l : List Char) :
    pyStripList (l.map pyUpperChar) = (pyStripList l).map pyUpperChar := by
  rw [pyStripList, pyStripList, dropWhile_map_pyUpper, ← List.map_reverse,
    dropWhile_map_pyUpper, ← List.map_reverse]

theorem pyStrip_pyUpper_comm (s : String) : pyStrip (pyUpper s) = pyUpper (pyStrip s) := by
  simp only [pyStrip, pyUpper]
  exact congrArg String.mk (pyStripList_map_pyUpper s.data)

theorem pyStrip_idem (s : String) : pyStrip (pyStrip s) = pyStrip s := by
  simp only [pyStrip]
  exact congrArg String.mk (pyStripList_idem s.data)

theorem pyUpper_idem (s : String) : pyUpper (pyUpper s) = pyUpper s := by
  simp only [pyUpper]
  refine congrArg String.mk ?_
  rw [List.map_map]
  exact List.map_congr_left (fun c _ => pyUpperChar_idem c)

theorem pyNorm_fix (s : String) :
    pyUpper (pyStrip (pyUpper (pyStrip s))) = pyUpper (pyStrip s) := by
  rw [pyStrip_pyUpper_comm, pyStrip_idem, pyUpper_idem]

/-! Lemmas about the day expander. -/

/-- The fixed weekday list of `create_room_use_chart` (src/app.py line 198). -/
def days_of_week : List String :=
  ["Monday", "Tuesday", "Wednesday", "Thursday", "Friday"]

theorem get_day_of_week_nodup (m t w r f : String) :
    (get_day_of_week m t w r f).Nodup := by
  unfold get_day_of_week
  split_ifs <;> decide

theorem get_day_of_week_length_le (m t w r f : String) :
    (get_day_of_week m t w r f).length ≤ 5 := by
  unfold get_day_of_week
  split_ifs <;> decide

theorem get_day_of_week_count (d m t w r f : String) :
    (get_day_of_week m t w r f).count d =
      if d ∈ get_day_of_week m t w r f then 1 else 0 := by
  by_cases hd : d ∈ get_day_of_week m t w r f
  · rw [if_pos hd]
    exact List.count_eq_one_of_mem (get_day_of_week_nodup m t w r f) hd
  · rw [if_neg hd]
    exact List.count_eq_zero.mpr hd

theorem get_day_of_week_count_sum (m t w r f : String) :
    (days_of_week.map (fun d => (get_day_of_week m t w r f).count d)).sum =
      (get_day_of_week m t w r f).length := by
  unfold get_day_of_week days_of_week
  split_ifs <;> decide

/-! Lemmas about digit tokens and `parse_time`. -/

theorem isDigit_not_pyIsSpace (c : Char) (h : c.isDigit = true) : pyIsSpace c = false := by
  cases hs : pyIsSpace c with
  | false => rfl
  | true =>
    exfalso
    simp only [pyIsSpace, Bool.or_eq_true, decide_eq_true_eq] at hs
    rcases hs with ((((h1 | h1) | h1) | h1) | h1) | h1 <;> subst h1 <;> simp at h

theorem dropWhile_of_all_digits (l : List Char) (h : l.all Char.isDigit = true) :
    l.dropWhile pyIsSpace = l := by
  cases l with
  | nil => rfl
  | cons c rest =>
    have hc : c.isDigit = true := by
      simp only [List.all_cons, Bool.and_eq_true] at h
      exact h.1
    exact List.dropWhile_cons_of_neg (by simp [isDigit_not_pyIsSpace c hc])

theorem pyStripList_of_all_digits (l : List Char) (h : l.all Char.isDigit = true) :
    pyStripList l = l := by
  rw [pyStripList, dropWhile_of_all_digits l h,
    dropWhile_of_all_digits l.reverse (by simpa using h), List.reverse_reverse]

theorem isDigit_not_sign (c : Char) (h : c.isDigit = true) : ¬(c = '+') ∧ ¬(c = '-') := by
  constructor <;> intro hc <;> subst hc <;> simp at h

theorem digitsGrouped_of_all_digits :
    ∀ l : List Char, l ≠ [] → l.all Char.isDigit = true → digitsGrouped l = true
  | [], hne, _ => absurd rfl hne
  | [c], _, h => by
    simp only [List.all_cons, List.all_nil, Bool.and_eq_true] at h
    simp [digitsGrouped, h.1]
  | c :: c2 :: rest, _, h => by
    simp only [List.all_cons, Bool.and_eq_true] at h
    have hc2u : ¬(c2 = '_') := by
      intro he
      rw [he] at h
      simp at h
    rw [digitsGrouped, if_neg hc2u]
    simp only [h.1, Bool.true_and]
    exact digitsGrouped_of_all_digits (c2 :: rest) (by simp) (by simp [h.2.1, h.2.2])

theorem filter_no_underscore (l : List Char) (h : l.all Char.isDigit = true) :
    l.filter (fun c => !(c = '_')) = l := by
  apply List.filter_eq_self.mpr
  intro a ha
  rw [List.all_eq_true] at h
  have hd := h a ha
  simp only [Bool.not_eq_true', decide_eq_false_iff_not]
  intro he
  subst he
  simp at hd

theorem pyInt_of_all_digits (l : List Char) (hne : l ≠ []) (h : l.all Char.isDigit = true) :
    pyInt ⟨l⟩ = some ((natOfDigits l : Int)) := by
  have hdata : (⟨l⟩ : String).data = l := rfl
  rw [pyInt.eq_def, hdata, pyStripList_of_all_digits l h]
  cases l with
  | nil => exact absurd rfl hne
  | cons c rest =>
    have hc : c.isDigit = true := by
      simp only [List.all_cons, Bool.and_eq_true] at h
      exact h.1
    obtain ⟨hp, hm⟩ := isDigit_not_sign c hc
    simp only [if_neg hp, if_neg hm]
    rw [pyDigitsVal, if_pos (digitsGrouped_of_all_digits (c :: rest) (by simp) h),
      filter_no_underscore (c :: rest) h]
    rfl

theorem natOfDigits_cons_zero (l : List Char) : natOfDigits ('0' :: l) = natOfDigits l := rfl

theorem parse_time_of_all_digits (s : String)
    (hlen : s.data.length = 3 ∨ s.data.length = 4)
    (hdig : s.data.all Char.isDigit = true) :
    parse_time (some s) =
      some ((natOfDigits (s.data.take (s.data.length - 2)) : Int) * 60 +
        (natOfDigits (s.data.drop (s.data.length - 2)) : Int)) := by
  obtain ⟨l⟩ := s
  have hdata : (⟨l⟩ : String).data = l := rfl
  rw [hdata] at hlen hdig ⊢
  have hlne : l ≠ [] := by
    intro h0
    rw [h0] at hlen
    simp at hlen
  have hne : (⟨l⟩ : String) ≠ "" := by
    intro hcon
    exact hlne (by simpa using congrArg String.data hcon)
  simp only [parse_time]
  rw [if_neg hne, pyStripList_of_all_digits l hdig]
  rcases hlen with h3 | h4
  · rcases l with _ | ⟨a, _ | ⟨b, _ | ⟨c, _ | ⟨d, rest⟩⟩⟩⟩ <;> simp only [List.length_cons, List.length_nil] at h3 <;> try omega
    simp only [List.all_cons, Bool.and_eq_true, List.all_nil, and_true] at hdig
    obtain ⟨ha, hb, hc⟩ := hdig
    obtain ⟨hap, ham⟩ := isDigit_not_sign a ha
    rw [pyZfillList, if_neg (by simp), if_neg (by simp [hap, ham])]
    simp only [List.length_cons, List.length_nil]
    rw [show (4 - 3 : Nat) = 1 from rfl]
    simp only [List.replicate, List.cons_append, List.nil_append]
    rw [show (('0' :: a :: b :: c :: []).length - 2 : Nat) = 2 from rfl]
    simp only [List.take, List.drop]
    rw [pyInt_of_all_digits ['0', a] (by simp) (by simp [ha]),
      pyInt_of_all_digits [b, c] (by simp) (by simp [hb, hc])]
    simp [natOfDigits_cons_zero]
  · rcases l with _ | ⟨a, _ | ⟨b, _ | ⟨c, _ | ⟨d, _ | ⟨e, rest⟩⟩⟩⟩⟩ <;> simp only [List.length_cons, List.length_nil] at h4 <;> try omega
    simp only [List.all_cons, Bool.and_eq_true, List.all_nil, and_true] at hdig
    obtain ⟨ha, hb, hc, hd⟩ := hdig
    rw [pyZfillList, if_pos (by simp)]
    rw [show ((a :: b :: c :: d :: []).length - 2 : Nat) = 2 from rfl]
    simp only [List.take, List.drop]
    rw [pyInt_of_all_digits [a, b] (by simp) (by simp [ha, hb]),
      pyInt_of_all_digits [c, d] (by simp) (by simp [hc, hd])]


/-! Lemmas about per-row contributions and bucket nonemptiness. -/

theorem mem_rowsContrib (d r : String) (e : MeetingEntry) :
    ∀ rows : List CleanRow, e ∈ rowsContrib rows d r → ∃ row ∈ rows, e ∈ rowContrib row d r
  | [], h => by simp [rowsContrib] at h
  | row :: rest, h => by
    rw [rowsContrib] at h
    rcases List.mem_append.mp h with h1 | h1
    · exact ⟨row, List.mem_cons_self _ _, h1⟩
    · obtain ⟨row', hmem, hrc⟩ := mem_rowsContrib d r e rest h1
      exact ⟨row', List.mem_cons_of_mem _ hmem, hrc⟩

theorem rowContrib_parse (row : CleanRow) (d r : String) (e : MeetingEntry)
    (h : e ∈ rowContrib row d r) : parse_time e.Begin = some e.BeginMinutes := by
  unfold rowContrib at h
  cases hn : pyFloatTrunc row.ROOM with
  | none => simp [hn] at h
  | some n =>
    cases hb : parse_time row.BEGIN with
    | none => simp [hn, hb] at h
    | some bt =>
      simp only [hn, hb] at h
      by_cases hr : roomNameOf row n = r
      · rw [if_pos hr] at h
        have he := List.eq_of_mem_replicate h
        subst he
        simpa [mkEntry] using hb
      · rw [if_neg hr] at h
        simp at h

/-- Invariant of the claim: no empty room map and no empty bucket. -/
def NonemptySched (s : RoomSchedule) : Prop :=
  ∀ p ∈ s, p.2 ≠ [] ∧ ∀ q ∈ p.2, q.2 ≠ []

theorem addToRoom_buckets (room : String) (e : MeetingEntry) :
    ∀ rm : RoomMap, (∀ q ∈ rm, q.2 ≠ []) → ∀ q ∈ addToRoom rm room e, q.2 ≠ []
  | [], _ => by
    intro q hq
    rw [addToRoom] at hq
    rcases List.mem_singleton.mp hq with rfl
    simp
  | (r0, b) :: rest, h => by
    intro q hq
    rw [addToRoom] at hq
    by_cases h0 : r0 = room
    · rw [if_pos h0] at hq
      rcases List.mem_cons.mp hq with heq | hmem
      · rw [heq]
        simp
      · exact h q (List.mem_cons_of_mem _ hmem)
    · rw [if_neg h0] at hq
      rcases List.mem_cons.mp hq with heq | hmem
      · exact heq ▸ h (r0, b) (List.mem_cons_self _ _)
      · exact addToRoom_buckets room e rest
          (fun q' hq' => h q' (List.mem_cons_of_mem _ hq')) q hmem

theorem addToRoom_ne_nil (rm : RoomMap) (room : String) (e : MeetingEntry) :
    addToRoom rm room e ≠ [] := by
  cases rm with
  | nil => simp [addToRoom]
  | cons p rest =>
    obtain ⟨r0, b⟩ := p
    rw [addToRoom]
    split_ifs <;> simp

theorem addToSched_nonempty (day room : String) (e : MeetingEntry) :
    ∀ s : RoomSchedule, NonemptySched s → NonemptySched (addToSched s day room e)
  | [], _ => by
    intro p hp
    rw [addToSched] at hp
    rcases List.mem_singleton.mp hp with rfl
    exact ⟨addToRoom_ne_nil [] room e, addToRoom_buckets room e [] (by simp)⟩
  | (d0, rm) :: rest, h => by
    intro p hp
    rw [addToSched] at hp
    by_cases h0 : d0 = day
    · rw [if_pos h0] at hp
      rcases List.mem_cons.mp hp with heq | hmem
      · refine heq ▸ ⟨addToRoom_ne_nil rm room e, addToRoom_buckets room e rm ?_⟩
        exact (h (d0, rm) (List.mem_cons_self _ _)).2
      · exact h p (List.mem_cons_of_mem _ hmem)
    · rw [if_neg h0] at hp
      rcases List.mem_cons.mp hp with heq | hmem
      · exact heq ▸ h (d0, rm) (List.mem_cons_self _ _)
      · exact addToSched_nonempty day room e rest
          (fun q hq => h q (List.mem_cons_of_mem _ hq)) p hmem

theorem daysFold_nonempty (rn : String) (e : MeetingEntry) :
    ∀ (days : List String) (sched : RoomSchedule), NonemptySched sched →
      NonemptySched (days.foldl (fun s day => addToSched s day rn e) sched)
  | [], _, h => h
  | d1 :: rest, sched, h =>
    daysFold_nonempty rn e rest (addToSched sched d1 rn e) (addToSched_nonempty d1 rn e sched h)

theorem processRow_nonempty (sched : RoomSchedule) (row : CleanRow)
    (h : NonemptySched sched) : NonemptySched (processRow sched row) := by
  rw [processRow]
  cases pyFloatTrunc row.ROOM with
  | none => exact h
  | some n =>
    cases parse_time row.BEGIN with
    | none => exact h
    | some begin_time => exact daysFold_nonempty _ _ row.Days sched h

theorem foldl_processRow_nonempty :
    ∀ (rows : List CleanRow) (sched : RoomSchedule), NonemptySched sched →
      NonemptySched (rows.foldl processRow sched)
  | [], _, h => h
  | row :: rest, sched, h =>
    foldl_processRow_nonempty rest (processRow sched row) (processRow_nonempty sched row h)

theorem stableSortEntries_ne_nil (b : Bucket) (h : b ≠ []) : stableSortEntries b ≠ [] := by
  intro hc
  have hl := (stableSortEntries_perm b).length_eq
  rw [hc] at hl
  exact h (List.length_eq_zero.mp hl.symm)

theorem sortSched_nonempty (s : RoomSchedule) (h : NonemptySched s) :
    NonemptySched (sortSched s) := by
  intro p hp
  rw [sortSched] at hp
  obtain ⟨p0, hp0, rfl⟩ := List.mem_map.mp hp
  obtain ⟨h1, h2⟩ := h p0 hp0
  refine ⟨by simpa using h1, ?_⟩
  intro q hq
  obtain ⟨q0, hq0, heq⟩ := List.mem_map.mp hq
  rw [← heq]
  exact stableSortEntries_ne_nil q0.2 (h2 q0 hq0)

/-- A well-formed row with an in-range begin time, used in witnesses. -/
def goodRow : ScheduleRow :=
  { BLDG := some "SCST"
    ROOM := some "225"
    BEGIN := some "0930"
    END := some "1045"
    SUBJ := some "BIOL"
    CRSE := some "221"
    TITLE := some "Microbiology"
    LAST_NAME := some "Smith"
    M := some "M"
    T := some ""
    W := some ""
    R := some ""
    F := some "" }

/-- A row whose `BEGIN` token is unparseable, used in witnesses. -/
def badRow : ScheduleRow :=
  { BLDG := some "SCST"
    ROOM := some "225"
    BEGIN := some "noon"
    END := some "1045"
    SUBJ := some "BIOL"
    CRSE := some "221"
    TITLE := some "Microbiology"
    LAST_NAME := some "Smith"
    M := some "M"
    T := some ""
    W := some ""
    R := some ""
    F := some "" }

/-- A row whose ROOM token float-parses to infinity: `int(float("inf"))`
raises `OverflowError`, which the `except (ValueError, TypeError)` at
src/app.py line 147 does not catch. -/
def infRow : ScheduleRow :=
  { BLDG := some "SCST"
    ROOM := some "inf"
    BEGIN := some "0930"
    END := some "1045"
    SUBJ := some "BIOL"
    CRSE := some "221"
    TITLE := some "Microbiology"
    LAST_NAME := some "Smith"
    M := some "M"
    T := some ""
    W := some ""
    R := some ""
    F := some "" }

/-- The meeting entry derived from `goodRow`. -/
def goodEntry : MeetingEntry :=
  { Begin := some "0930"
    End := some "1045"
    Course := "BIOL221"
    Title := some "Microbiology"
    Instructor := "SMITH"
    BeginMinutes := 570
    IsMorning := true }

example : process_schedule_data [goodRow] = [("Monday", [("ST225", [goodEntry])])] := by decide

/-! Claim theorems. -/

/-- C1 counterexample: the claim that "1430" and "14:30" parse to the same
minute value 870 is false on the code; the colon lands in the hour slice
`[:-2]`, `int("14:")` raises and the bare `except` returns `None`. -/
theorem C1_counterexample_colon_form :
    parse_time (some "1430") = some 870 ∧ ¬ parse_time (some "14:30") = some 870 := by
  decide

/-- C1 (amended): the time parser accepts the zero-padded 3-4 digit `HHMM`
form and returns first-part hours times 60 plus last-two-digit minutes,
but the `HH:MM` form is rejected: "14:30" parses to `None`, not 870. -/
theorem C1_hhmm_only (s : String)
    (hlen : s.data.length = 3 ∨ s.data.length = 4)
    (hdig : s.data.all Char.isDigit = true) :
    parse_time (some s) =
      some ((natOfDigits (s.data.take (s.data.length - 2)) : Int) * 60 +
        (natOfDigits (s.data.drop (s.data.length - 2)) : Int)) ∧
    parse_time (some "14:30") = none :=
  ⟨parse_time_of_all_digits s hlen hdig, by decide⟩

/-- C1 witness: the amended theorem applied to the concrete token "1430". -/
theorem C1_hhmm_only_witness :
    parse_time (some "1430") = some 870 ∧ parse_time (some "14:30") = none := by
  have h := C1_hhmm_only "1430" (Or.inr (by decide)) (by decide)
  refine ⟨?_, h.2⟩
  rw [h.1]
  decide

/-- C2 counterexample: an input row with `BEGIN` token "2500" survives
filtering and is stored with `BeginMinutes = 1500`, outside [0, 1439];
the claimed invariant fails on the code. -/
theorem C2_counterexample_range :
    ¬ (∀ e ∈ bucketOf (process_schedule_data [sampleRow]) "Monday" "ST225",
        0 ≤ e.BeginMinutes ∧ e.BeginMinutes ≤ 1439) := by
  decide

/-- C2 (amended): every entry stored in any (day, room) bucket carries
exactly the `parse_time` value of its `BEGIN` token as `BeginMinutes`;
the code enforces no [0, 1439] range check, so out-of-range tokens such as
"2500" store out-of-range minute values. -/
theorem C2_begin_minutes_eq_parse (df : List ScheduleRow) (d r : String) (e : MeetingEntry)
    (h : e ∈ bucketOf (process_schedule_data df) d r) :
    parse_time e.Begin = some e.BeginMinutes := by
  rw [bucketOf_process_schedule_data] at h
  have h2 := (stableSortEntries_perm _).mem_iff.mp h
  obtain ⟨row, _, hrc⟩ := mem_rowsContrib d r e _ h2
  exact rowContrib_parse row d r e hrc

/-- C2 witness: the amended theorem applied to the concrete schedule built
from `goodRow`. -/
theorem C2_begin_minutes_eq_parse_witness :
    parse_time goodEntry.Begin = some goodEntry.BeginMinutes :=
  C2_begin_minutes_eq_parse [goodRow] "Monday" "ST225" goodEntry (by decide)

/-- C3 counterexample: the claim asserts that every row whose room
identifier cannot be computed is skipped silently with processing
continuing without an error, but for a row with ROOM "inf" the room
computation raises the uncaught `OverflowError` (the `overflowErr`
outcome), which is not one of the two exception classes the `except`
clause catches: the program raises instead of continuing. -/
theorem C3_counterexample_inf_room :
    pyFloatIntCore (cleanRow infRow).ROOM = PyIntFloatResult.overflowErr ∧
    PyIntFloatResult.overflowErr ≠ PyIntFloatResult.caught := by
  decide

/-- C3 (amended): a row whose room computation raises one of the two caught
exception classes (`ValueError`/`TypeError`), or whose room computes but
whose `BEGIN` token is unparseable, contributes no entry to any (day,
room) bucket and the remaining rows are processed exactly as if the row
were absent; a row whose room computation raises `OverflowError` (an
infinite float such as ROOM "inf") instead aborts processing with an
uncaught exception. -/
theorem C3_caught_rows_skipped (pre post : List ScheduleRow) (r0 : ScheduleRow)
    (h : pyFloatIntCore (cleanRow r0).ROOM = PyIntFloatResult.caught ∨
      ((∃ n, pyFloatIntCore (cleanRow r0).ROOM = PyIntFloatResult.ok n) ∧
        parse_time (cleanRow r0).BEGIN = none)) :
    ∀ d r, bucketOf (process_schedule_data (pre ++ r0 :: post)) d r =
      bucketOf (process_schedule_data (pre ++ post)) d r := by
  intro d r
  rw [bucketOf_process_schedule_data, bucketOf_process_schedule_data]
  have hcontrib : rowContrib (cleanRow r0) d r = [] := by
    unfold rowContrib
    rcases h with h | ⟨⟨n, hok⟩, hb⟩
    · have hnone : pyFloatTrunc (cleanRow r0).ROOM = none := by
        rw [pyFloatTrunc, h]
      simp only [hnone]
    · have hsome : pyFloatTrunc (cleanRow r0).ROOM = some n := by
        rw [pyFloatTrunc, hok]
      simp only [hsome, hb]
  by_cases hdrop : dropnaOK r0 = true
  · simp [List.filter_append, List.filter_cons, hdrop, rowsContrib_append, rowsContrib, hcontrib]
  · simp [List.filter_append, List.filter_cons, hdrop]

/-- C3 witness: prepending `badRow` (room 225 computes, BEGIN "noon" is
unparseable) to `goodRow` leaves the Monday ST225 bucket unchanged. -/
theorem C3_caught_rows_skipped_witness :
    bucketOf (process_schedule_data [badRow, goodRow]) "Monday" "ST225" =
      bucketOf (process_schedule_data [goodRow]) "Monday" "ST225" := by
  have h := C3_caught_rows_skipped [] [goodRow] badRow
    (Or.inr ⟨⟨225, by decide⟩, by decide⟩)
  simpa using h "Monday" "ST225"

/-- C4: after processing, every (day, room) bucket is non-decreasing in
`BeginMinutes`, filtering the sorted bucket to any key value preserves the
pre-sort sequence of equal-key entries (stability), and the pre-sort
bucket lists contributions in input row order. -/
theorem C4_buckets_sorted_stable (df : List ScheduleRow) (d r : String) :
    SortedBucket (bucketOf (process_schedule_data df) d r) ∧
    (∀ k : Int,
      (bucketOf (process_schedule_data df) d r).filter (fun e => decide (e.BeginMinutes = k)) =
        (bucketOf (process_raw df) d r).filter (fun e => decide (e.BeginMinutes = k))) ∧
    bucketOf (process_raw df) d r = rowsContrib ((df.filter dropnaOK).map cleanRow) d r := by
  refine ⟨?_, fun k => ?_, bucketOf_process_raw df d r⟩
  · rw [process_schedule_data, bucketOf_sortSched]
    exact stableSortEntries_sorted _
  · rw [process_schedule_data, bucketOf_sortSched, stableSortEntries_filter]

/-- C5: a valid row (room computes, begin time parses) appended by the row
loop contributes exactly one entry to the bucket of each day it is active
on under its room, no entry to any other bucket, and one entry per active
day in total. -/
theorem C5_one_entry_per_day (r0 : ScheduleRow) (n begin_time : Int)
    (hn : pyFloatTrunc (cleanRow r0).ROOM = some n)
    (hb : parse_time (cleanRow r0).BEGIN = some begin_time) :
    (∀ sched d r, bucketOf (processRow sched (cleanRow r0)) d r =
        bucketOf sched d r ++ rowContrib (cleanRow r0) d r) ∧
    (∀ d r, (rowContrib (cleanRow r0) d r).length =
        if d ∈ (cleanRow r0).Days ∧ r = roomNameOf (cleanRow r0) n then 1 else 0) ∧
    (days_of_week.map
        (fun d => (rowContrib (cleanRow r0) d (roomNameOf (cleanRow r0) n)).length)).sum =
      (cleanRow r0).Days.length := by
  refine ⟨fun sched d r => bucketOf_processRow sched _ d r, ?_, ?_⟩
  · intro d r
    unfold rowContrib
    simp only [hn, hb]
    by_cases hr : roomNameOf (cleanRow r0) n = r
    · rw [if_pos hr, List.length_replicate]
      have hcount : (cleanRow r0).Days.count d =
          if d ∈ (cleanRow r0).Days then 1 else 0 :=
        get_day_of_week_count d _ _ _ _ _
      rw [hcount]
      by_cases hd : d ∈ (cleanRow r0).Days
      · simp [hd, hr.symm]
      · simp [hd]
    · rw [if_neg hr]
      have hno : ¬(d ∈ (cleanRow r0).Days ∧ r = roomNameOf (cleanRow r0) n) := by
        rintro ⟨-, hr2⟩
        exact hr hr2.symm
      simp [hno]
  · unfold rowContrib
    simp only [hn, hb, eq_self_iff_true, if_true, List.length_replicate]
    exact get_day_of_week_count_sum _ _ _ _ _

/-- C5 witness: the theorem applied to `goodRow`, active on Monday only. -/
theorem C5_one_entry_per_day_witness :
    (rowContrib (cleanRow goodRow) "Monday" (roomNameOf (cleanRow goodRow) 225)).length = 1 := by
  have h := C5_one_entry_per_day goodRow 225 570 (by decide) (by decide)
  rw [h.2.1 "Monday" (roomNameOf (cleanRow goodRow) 225)]
  decide

/-- C6: the day expander includes a weekday exactly when the stripped cell
equals that column single-letter code, and a row expands to at most the
five weekdays. -/
theorem C6_day_flag_exact_match (m t w r f : String) :
    (("Monday" ∈ get_day_of_week m t w r f) ↔ pyStrip m = "M") ∧
    (("Tuesday" ∈ get_day_of_week m t w r f) ↔ pyStrip t = "T") ∧
    (("Wednesday" ∈ get_day_of_week m t w r f) ↔ pyStrip w = "W") ∧
    (("Thursday" ∈ get_day_of_week m t w r f) ↔ pyStrip r = "R") ∧
    (("Friday" ∈ get_day_of_week m t w r f) ↔ pyStrip f = "F") ∧
    (get_day_of_week m t w r f).length ≤ 5 := by
  refine ⟨?_, ?_, ?_, ?_, ?_, get_day_of_week_length_le m t w r f⟩ <;>
    · unfold get_day_of_week
      split_ifs <;> simp_all

/-- C7: when required columns are missing, the outcome is the error listing
exactly the missing columns (the required columns absent from the header)
and no schedule is produced. -/
theorem C7_missing_columns_abort (cols : List String) (rows : List ScheduleRow)
    (h : missing_cols cols ≠ []) :
    validate_and_generate cols rows =
      (UploadOutcome.errorMissing (missing_cols cols), none) ∧
    ∀ c, c ∈ missing_cols cols ↔ (c ∈ REQUIRED_COLUMNS ∧ c ∉ cols) := by
  constructor
  · rw [validate_and_generate]
    rw [if_neg (by simpa [List.isEmpty_iff] using h)]
  · intro c
    rw [missing_cols, List.mem_filter]
    simp

/-- C7 witness: an empty header is missing every required column. -/
theorem C7_missing_columns_abort_witness :
    validate_and_generate [] [] = (UploadOutcome.errorMissing REQUIRED_COLUMNS, none) ∧
    ("SUBJ" ∈ missing_cols [] ↔ ("SUBJ" ∈ REQUIRED_COLUMNS ∧ "SUBJ" ∉ ([] : List String))) := by
  have h := C7_missing_columns_abort [] [] (by decide)
  refine ⟨?_, h.2 "SUBJ"⟩
  have hm : missing_cols [] = REQUIRED_COLUMNS := by decide
  rw [h.1, hm]

/-- C8: the time parser is total: every input (missing value, empty string
or arbitrary string) yields either `none` or some minute value, with the
failure cases signalled by `none` rather than an escaping exception. -/
theorem C8_parse_time_total :
    (∀ t : Option String, parse_time t = none ∨ ∃ mv : Int, parse_time t = some mv) ∧
    parse_time none = none ∧ parse_time (some "") = none := by
  refine ⟨fun t => ?_, rfl, by decide⟩
  cases h : parse_time t with
  | none => exact Or.inl rfl
  | some mv => exact Or.inr ⟨mv, rfl⟩

/-- C9: the returned schedule has no empty buckets: every day entry holds a
nonempty room map and every room entry holds a nonempty entry list. -/
theorem C9_no_empty_buckets (df : List ScheduleRow) :
    ∀ p ∈ process_schedule_data df, p.2 ≠ [] ∧ ∀ q ∈ p.2, q.2 ≠ [] := by
  have h0 : NonemptySched (process_raw df) := by
    apply foldl_processRow_nonempty
    intro p hp
    simp at hp
  exact sortSched_nonempty _ h0

/-- C9 witness: the theorem applied to the singleton schedule of `goodRow`. -/
theorem C9_no_empty_buckets_witness :
    ("Monday", [("ST225", [goodEntry])]).2 ≠ ([] : RoomMap) ∧
      ∀ q ∈ ("Monday", [("ST225", [goodEntry])]).2, q.2 ≠ [] :=
  C9_no_empty_buckets [goodRow] ("Monday", [("ST225", [goodEntry])]) (by decide)

/-- C10: the instructor name normalizer is idempotent: its output is already
stripped and upper-cased, and the correction table maps each of its own
output values to itself or leaves them untouched. -/
theorem C10_normalizer_idempotent (name : Option String) :
    correct_instructor_name (some (correct_instructor_name name)) =
      correct_instructor_name name := by
  cases name with
  | none => decide
  | some s =>
    show correct_instructor_name
        (some ((corrections.lookup (pyUpper (pyStrip s))).getD (pyUpper (pyStrip s)))) =
      (corrections.lookup (pyUpper (pyStrip s))).getD (pyUpper (pyStrip s))
    by_cases h1 : pyUpper (pyStrip s) = "NYHOLT DE PRADA"
    · rw [h1]
      decide
    · by_cases h2 : pyUpper (pyStrip s) = "RECART GONZALEZ"
      · rw [h2]
        decide
      · by_cases h3 : pyUpper (pyStrip s) = "FLEMING-DAVIES"
        · rw [h3]
          decide
        · have hl : corrections.lookup (pyUpper (pyStrip s)) = none := by
            have e1 : (pyUpper (pyStrip s) == "NYHOLT DE PRADA") = false :=
              beq_eq_false_iff_ne.mpr h1
            have e2 : (pyUpper (pyStrip s) == "RECART GONZALEZ") = false :=
              beq_eq_false_iff_ne.mpr h2
            have e3 : (pyUpper (pyStrip s) == "FLEMING-DAVIES") = false :=
              beq_eq_false_iff_ne.mpr h3
            simp [corrections, List.lookup, e1, e2, e3]
          rw [hl, Option.getD_none]
          show (corrections.lookup
              (pyUpper (pyStrip (pyUpper (pyStrip s))))).getD
              (pyUpper (pyStrip (pyUpper (pyStrip s)))) = pyUpper (pyStrip s)
          rw [pyNorm_fix, hl, Option.getD_none]

end BioRoomChart
